import Mathlib

/-!
Verification of `bench.py` (class `BenchReport`): a shallow embedding of the
timing/aggregation engine — the iteration driver (`__call__` / `__iter__` /
`__next__`), the part-scope context manager (`part`), the sample iterators
(`iter_measures_part`, `iter_measures_parts_globalized`) and the statistics
aggregator (`_get_stats`).

The timer (`time.perf_counter_ns`) is modelled as an injected function
`tm : Nat → Int` indexed by the number of timer calls made so far; each state
carries a `tick` counter recording how many readings have been consumed, so
`tm s.tick` is the value the next `self._timer()` call returns.  Python dicts
are association lists with insert-at-end / update-in-place semantics, Python
sets are duplicate-free lists, exceptions are explicit result constructors,
and `StopIteration` is the `none` outcome of `benchNext`.  Durations are `Int`
(nanosecond counts); `_get_stats` works over `ℚ` because it divides.
-/

namespace PyBench

/-- Python dict assignment `d[k] = v`: update in place if the key exists,
else append at the end (insertion order preserved). -/
def dictInsert {α β : Type} [DecidableEq α] (k : α) (v : β) : List (α × β) → List (α × β)
  | [] => [(k, v)]
  | (k', v') :: rest => if k' = k then (k, v) :: rest else (k', v') :: dictInsert k v rest

/-- Python dict lookup `d[k]` / membership `k in d`. -/
def dictGet {α β : Type} [DecidableEq α] (k : α) : List (α × β) → Option β
  | [] => none
  | (k', v) :: rest => if k' = k then some v else dictGet k rest

/-- Python `set.add`. -/
def setAdd (x : String) (l : List String) : List String := if x ∈ l then l else l ++ [x]

/-- One iteration's dict of part durations (`partname -> delta`).  The values
are `Option Int` so that the source's `is None` checks can be translated
verbatim (the code only ever stores concrete deltas). -/
abbrev Row := List (String × Option Int)

/-- `parts_benches` / `apart_benches`: iteration index -> row. -/
abbrev Store := List (Nat × Row)

/-- State of a `BenchReport` object, plus the modelled ambient state: the
`gc` module's enabled flag and the timer-call counter `tick`. -/
structure Bench where
  default_repeat : Nat
  default_turn_gc_off : Bool
  parts_benches : Store
  apart_benches : Store
  loop_benches : List Int
  current_iteration : Nat
  parts_names : List String
  apart_names : List String
  startlooptime : Option Int
  lastlooptime : Option Int
  totaltime : Option Int
  totalitertime : Option Int
  overhead : Option Int
  gc_enabled : Bool
  tick : Nat
deriving Repr, DecidableEq

/-- One call of `self._timer()`: read the injected clock and advance `tick`. -/
def timerRead (tm : Nat → Int) (s : Bench) : Int × Bench :=
  (tm s.tick, { s with tick := s.tick + 1 })

/-- `BenchReport.reset` (lines 86-100). -/
def benchReset (s : Bench) : Bench :=
  { s with
    parts_benches := []
    apart_benches := []
    loop_benches := []
    current_iteration := 0
    parts_names := []
    apart_names := []
    startlooptime := none
    lastlooptime := none
    totaltime := none
    totalitertime := none
    overhead := none }

/-- `BenchReport.__init__` with the defaults `repeat=1, turn_gc_off=True`;
the ambient `gc` starts enabled and no timer reading has been taken. -/
def benchInit : Bench :=
  benchReset
    { default_repeat := 1
      default_turn_gc_off := true
      parts_benches := []
      apart_benches := []
      loop_benches := []
      current_iteration := 0
      parts_names := []
      apart_names := []
      startlooptime := none
      lastlooptime := none
      totaltime := none
      totalitertime := none
      overhead := none
      gc_enabled := true
      tick := 0 }

/-- `BenchReport.__call__(n)` (lines 103-115): optionally override the repeat
count, reset, and record the loop-start timestamp. -/
def benchCall (tm : Nat → Int) (n : Option Nat) (s : Bench) : Bench :=
  let s :=
    match n with
    | some m => { s with default_repeat := m }
    | none => s
  let s := benchReset s
  let (t, s) := timerRead tm s
  { s with startlooptime := some t }

/-- `BenchReport.__iter__` (lines 117-121). -/
def benchIter (tm : Nat → Int) (s : Bench) : Bench :=
  let s := { s with current_iteration := 0 }
  let (t, s) := timerRead tm s
  { s with lastlooptime := some t }

/-- `BenchReport.__next__` (lines 123-139).  `some k` models yielding the
value `k`; `none` models `raise StopIteration`.  (In a driven run
`_lastlooptime` and `_startlooptime` are always set; `getD 0` stands in for
the `TypeError` Python would raise on an unstarted report.) -/
def benchNext (tm : Nat → Int) (s : Bench) : Option Nat × Bench :=
  let (t2, s) := timerRead tm s
  let delta := t2 - s.lastlooptime.getD 0
  let s :=
    if s.current_iteration > 0 then { s with loop_benches := s.loop_benches ++ [delta] }
    else s
  let s := { s with lastlooptime := some t2 }
  if s.current_iteration < s.default_repeat then
    let s := { s with current_iteration := s.current_iteration + 1 }
    (some s.current_iteration, s)
  else
    let tt := t2 - s.startlooptime.getD 0
    let tit := s.loop_benches.sum
    (none, { s with totaltime := some tt, totalitertime := some tit, overhead := some (tt - tit) })

/-- Drive the sequence: call `benchNext` until it signals `StopIteration` or
the fuel runs out, collecting the yielded values.  The boolean records
whether the sequence actually terminated (it always does with fuel
`default_repeat - current_iteration + 1`). -/
def benchDrive (tm : Nat → Int) : Bench → Nat → List Nat × Bench × Bool
  | s, 0 => ([], s, false)
  | s, fuel + 1 =>
    match benchNext tm s with
    | (none, s') => ([], s', true)
    | (some v, s') =>
      let r := benchDrive tm s' fuel
      (v :: r.1, r.2.1, r.2.2)

/-- `for i in T(N): pass` driven to completion: `__call__(N)`, `__iter__`,
then `__next__` until `StopIteration`. -/
def benchRun (tm : Nat → Int) (N : Nat) (s : Bench) : List Nat × Bench × Bool :=
  let s := benchCall tm (some N) s
  let s := benchIter tm s
  benchDrive tm s (N + 1)

/-- Name defaulting in `part` (lines 151, 157): `"core"` for a separate
(apart) scope, `"setup"` for an inline one. -/
def resolvedPartName (partname : Option String) (report_apart : Bool) : String :=
  if report_apart then partname.getD "core" else partname.getD "setup"

/-- The *other* class's name set (`p_anti` in lines 155, 161). -/
def antiNames (s : Bench) (report_apart : Bool) : List String :=
  if report_apart then s.parts_names else s.apart_names

/-- `p.add(partname)` (line 167): register the name under its class. -/
def registerName (s : Bench) (pname : String) (report_apart : Bool) : Bench :=
  if report_apart then { s with apart_names := setAdd pname s.apart_names }
  else { s with parts_names := setAdd pname s.parts_names }

/-- The commit block of `part` (lines 193-203): ensure iteration `i` exists
in both stores, then add `delta` into `b[i][pname]`, summing with any
existing non-`None` value.  Returns the updated `(b, b_anti)`. -/
def commitPart (i : Nat) (pname : String) (delta : Int) (b b_anti : Store) : Store × Store :=
  let b1 := if (dictGet i b).isSome then b else dictInsert i ([] : Row) b
  let banti1 := if (dictGet i b_anti).isSome then b_anti else dictInsert i ([] : Row) b_anti
  let row := (dictGet i b1).getD []
  let row1 :=
    match dictGet pname row with
    | some (some old) => dictInsert pname (some (old + delta)) row
    | _ => dictInsert pname (some delta) row
  (dictInsert i row1 b1, banti1)

/-- Outcome of one full use of the `part` context manager. -/
inductive PartResult (ε : Type) where
  | ok (s : Bench)
  | consistencyViolation (s : Bench)
  | bodyError (e : ε) (s : Bench)
deriving DecidableEq

/-- `BenchReport.part` (lines 141-203) as one function over the whole
`with`-block: `body` is the scope body's outcome (`Except.ok ()` for normal
exit, `Except.error e` for the body raising `e`; the body itself touches no
report state and consumes no timer readings).
`PartResult.consistencyViolation` models the `AttributeError` of line 165,
raised before `start_time` is read; `PartResult.bodyError e` models the
re-raise of line 180 after the `gc` restore of lines 178-179. -/
def benchPart {ε : Type} (tm : Nat → Int) (partname : Option String) (report_apart : Bool)
    (turn_gc_off : Option Bool) (body : Except ε Unit) (s : Bench) : PartResult ε :=
  let gcold := s.gc_enabled
  let tgo := turn_gc_off.getD s.default_turn_gc_off
  let s1 := if tgo then { s with gc_enabled := false } else s
  let pname := resolvedPartName partname report_apart
  if pname ∈ antiNames s1 report_apart then PartResult.consistencyViolation s1
  else
    let s2 := registerName s1 pname report_apart
    let i := s2.current_iteration
    let (start_time, s3) := timerRead tm s2
    match body with
    | Except.error e =>
      let s4 := if gcold then { s3 with gc_enabled := true } else s3
      PartResult.bodyError e s4
    | Except.ok _ =>
      let s4 := if gcold then { s3 with gc_enabled := true } else s3
      let (end_time, s5) := timerRead tm s4
      let delta := end_time - start_time
      if report_apart then
        let bb := commitPart i pname delta s5.apart_benches s5.parts_benches
        PartResult.ok { s5 with apart_benches := bb.1, parts_benches := bb.2 }
      else
        let bb := commitPart i pname delta s5.parts_benches s5.apart_benches
        PartResult.ok { s5 with parts_benches := bb.1, apart_benches := bb.2 }

/-- The store a class's samples live in (`b` in lines 152, 158). -/
def ownStore (s : Bench) (report_apart : Bool) : Store :=
  if report_apart then s.apart_benches else s.parts_benches

/-- The committed duration for `(iteration i, part p)` in the given class's
store, `none` when absent. -/
def partSample (s : Bench) (report_apart : Bool) (i : Nat) (p : String) : Option Int :=
  (dictGet p ((dictGet i (ownStore s report_apart)).getD [])).join

/-- The inner loop of `iter_measures_part` (lines 221-225): the non-`None`
samples recorded for `p`, in store order, skipping iterations without one. -/
def collectPart (b : Store) (p : String) : List Int :=
  b.filterMap fun ir =>
    match dictGet p ir.2 with
    | some (some t) => some t
    | _ => none

/-- `BenchReport.iter_measures_part` (lines 206-225), with the generator
materialised as the list of yielded values and `KeyError` as `Except.error`. -/
def iter_measures_part (s : Bench) (p : String) : Except Unit (List Int) :=
  if p ∈ s.parts_names then Except.ok (collectPart s.parts_benches p)
  else if p ∈ s.apart_names then Except.ok (collectPart s.apart_benches p)
  else Except.error ()

/-- `iter_t = iter_t + t if iter_t else t` (lines 250, 255): Python
truthiness, so an accumulator of `0` is restarted (same value either way). -/
def accAdd (acc : Option Int) (t : Int) : Option Int :=
  match acc with
  | some v => if v ≠ 0 then some (v + t) else some t
  | none => some t

/-- Fold one iteration's row into the accumulator, skipping `None` samples. -/
def rowTotal (row : Row) (acc : Option Int) : Option Int :=
  row.foldl
    (fun a pv =>
      match pv.2 with
      | some t => accAdd a t
      | none => a)
    acc

/-- `BenchReport.iter_measures_parts_globalized` (lines 228-257): per
iteration of `b1`, total the row (and `b2`'s row for the same index when
present), yielding the totals that are not `None`. -/
def iter_measures_parts_globalized (s : Bench) (sec : String) : Except Unit (List Int) :=
  let go := fun (b1 b2 : Store) =>
    b1.filterMap fun ir =>
      let acc := rowTotal ir.2 none
      let acc :=
        match dictGet ir.1 b2 with
        | some row2 => rowTotal row2 acc
        | none => acc
      acc
  if sec = "parts" then Except.ok (go s.parts_benches [])
  else if sec = "aparts" then Except.ok (go s.apart_benches [])
  else if sec = "all" then Except.ok (go s.parts_benches s.apart_benches)
  else Except.error ()

/-- The deltas `__next__` appends while driving from a state whose last
boundary reading was `x` and whose next timer reading is `tm k`: the list
`[tm k - x, tm (k+1) - tm k, …]` of length `d + 1`. -/
def consecDeltas (tm : Nat → Int) : Int → Nat → Nat → List Int
  | x, k, 0 => [tm k - x]
  | x, k, d + 1 => (tm k - x) :: consecDeltas tm (tm k) (k + 1) d

/-- The two per-iteration stores hold exactly the same iteration keys, in the
same insertion order (claim C9's invariant). -/
def storesAligned (s : Bench) : Prop :=
  s.parts_benches.map Prod.fst = s.apart_benches.map Prod.fst

/-- `ns_to_ms = 1000000` (line 11). -/
def ns_to_ms : ℚ := 1000000

/-- Specification-side running minimum (seeded with the current `min`
accumulator), used to characterise the `min` tracking of lines 66-67. -/
def optMin : Option ℚ → List ℚ → Option ℚ
  | mn, [] => mn
  | none, t :: ts => optMin (some t) ts
  | some m, t :: ts => optMin (some (if m > t then t else m)) ts

/-- The summary dict built by `_get_stats` (`total`, `n`, `avg`, `min`). -/
structure Stat where
  total : ℚ
  n : Nat
  avg : Option ℚ
  min : Option ℚ
deriving Repr, DecidableEq

/-- One pass of the loop of lines 62-67 over one element. -/
def statStep (acc : ℚ × Nat × Option ℚ) (t : Option ℚ) : ℚ × Nat × Option ℚ :=
  match t with
  | none => acc
  | some t =>
    (acc.1 + t, acc.2.1 + 1,
      match acc.2.2 with
      | none => some t
      | some m => if m > t then some t else some m)

/-- `BenchReport._get_stats` (lines 53-76) over exact rationals: totalise the
non-`None` measures, convert `total` and `min` to milliseconds (the running
total is never `None`, so the line-69 guard always divides), then compute
`avg` from the converted total when `n > 0`. -/
def _get_stats (measures : List (Option ℚ)) : Stat :=
  let acc := measures.foldl statStep (0, 0, none)
  let total := acc.1 / ns_to_ms
  let mn := acc.2.2.map fun m => m / ns_to_ms
  let avg := if acc.2.1 > 0 then some (total / (acc.2.1 : ℚ)) else none
  { total := total, n := acc.2.1, avg := avg, min := mn }

/-! ### Driver lemmas -/

lemma consecDeltas_length (tm : Nat → Int) :
    ∀ (d : Nat) (x : Int) (k : Nat), (consecDeltas tm x k d).length = d + 1 := by
  intro d
  induction d with
  | zero => intro x k; simp [consecDeltas]
  | succ d ih => intro x k; simp [consecDeltas, ih]

lemma consecDeltas_sum (tm : Nat → Int) :
    ∀ (d : Nat) (x : Int) (k : Nat), (consecDeltas tm x k d).sum = tm (k + d) - x := by
  intro d
  induction d with
  | zero => intro x k; simp [consecDeltas]
  | succ d ih =>
    intro x k
    rw [show k + (d + 1) = (k + 1) + d by omega]
    simp only [consecDeltas, List.sum_cons, ih]
    omega

/-- Master characterisation of `benchDrive` from any mid-loop state whose
iteration counter is at least 1 and which has `d` yields left. -/
lemma benchDrive_spec (tm : Nat → Int) :
    ∀ (d : Nat) (s : Bench) (x : Int),
      1 ≤ s.current_iteration →
      s.default_repeat = s.current_iteration + d →
      s.lastlooptime = some x →
      benchDrive tm s (d + 1) =
        (List.range' (s.current_iteration + 1) d,
          { s with
            loop_benches := s.loop_benches ++ consecDeltas tm x s.tick d
            current_iteration := s.current_iteration + d
            lastlooptime := some (tm (s.tick + d))
            tick := s.tick + d + 1
            totaltime := some (tm (s.tick + d) - s.startlooptime.getD 0)
            totalitertime := some ((s.loop_benches ++ consecDeltas tm x s.tick d).sum)
            overhead := some ((tm (s.tick + d) - s.startlooptime.getD 0) -
              (s.loop_benches ++ consecDeltas tm x s.tick d).sum) },
          true) := by
  intro d
  induction d with
  | zero =>
    intro s x h1 h2 h3
    obtain ⟨dr, dg, pb, ab, lb, ci, pn, an, st, lt, tt, tit, ov, ge, tk⟩ := s
    dsimp only at h1 h2 h3 ⊢
    subst h3
    have hnext : benchNext tm (Bench.mk dr dg pb ab lb ci pn an st
        (some x) tt tit ov ge tk) =
        (none, Bench.mk dr dg pb ab (lb ++ [tm tk - x]) ci pn an st
          (some (tm tk)) (some (tm tk - st.getD 0)) (some ((lb ++ [tm tk - x]).sum))
          (some ((tm tk - st.getD 0) - (lb ++ [tm tk - x]).sum)) ge (tk + 1)) := by
      simp [benchNext, timerRead, show 0 < ci by omega, show ¬ (ci < dr) by omega]
    rw [show benchDrive tm (Bench.mk dr dg pb ab lb ci pn an st (some x) tt tit ov ge tk) (0 + 1) =
      (match benchNext tm (Bench.mk dr dg pb ab lb ci pn an st (some x) tt tit ov ge tk) with
       | (none, s') => ([], s', true)
       | (some v, s') =>
         let r := benchDrive tm s' 0
         (v :: r.1, r.2.1, r.2.2)) from rfl]
    rw [hnext]
    simp [consecDeltas]
  | succ d ih =>
    intro s x h1 h2 h3
    obtain ⟨dr, dg, pb, ab, lb, ci, pn, an, st, lt, tt, tit, ov, ge, tk⟩ := s
    dsimp only at h1 h2 h3 ⊢
    subst h3 h2
    have hnext : benchNext tm (Bench.mk (ci + (d + 1)) dg pb ab lb ci pn an st
        (some x) tt tit ov ge tk) =
        (some (ci + 1), Bench.mk (ci + (d + 1)) dg pb ab (lb ++ [tm tk - x]) (ci + 1) pn an st
          (some (tm tk)) tt tit ov ge (tk + 1)) := by
      simp [benchNext, timerRead, show 0 < ci by omega, show ci < ci + (d + 1) by omega]
    rw [show benchDrive tm (Bench.mk (ci + (d + 1)) dg pb ab lb ci pn an st
        (some x) tt tit ov ge tk) (d + 1 + 1) =
      (match benchNext tm (Bench.mk (ci + (d + 1)) dg pb ab lb ci pn an st
          (some x) tt tit ov ge tk) with
       | (none, s') => ([], s', true)
       | (some v, s') =>
         let r := benchDrive tm s' (d + 1)
         (v :: r.1, r.2.1, r.2.2)) from rfl]
    rw [hnext]
    dsimp only
    have hih := ih (Bench.mk (ci + (d + 1)) dg pb ab (lb ++ [tm tk - x]) (ci + 1) pn an st
      (some (tm tk)) tt tit ov ge (tk + 1)) (tm tk) (by dsimp only; omega) (by dsimp only; omega)
      rfl
    dsimp only at hih
    rw [hih]
    rw [show ci + 1 + d = ci + (d + 1) by omega, show tk + 1 + d = tk + (d + 1) by omega]
    simp [consecDeltas, List.range'_succ, List.append_assoc]

/-- Complete drive with repeat count 0: one terminating advance, no samples. -/
lemma benchRun_zero_eq (tm : Nat → Int) :
    benchRun tm 0 benchInit =
      ([], Bench.mk 0 true [] [] [] 0 [] [] (some (tm 0)) (some (tm 2))
        (some (tm 2 - tm 0)) (some 0) (some (tm 2 - tm 0 - 0)) true 3, true) := rfl

/-- Complete drive with repeat count `M + 1`, in closed form. -/
lemma benchRun_succ_eq (tm : Nat → Int) (M : Nat) :
    benchRun tm (M + 1) benchInit =
      (List.range' 1 (M + 1),
        Bench.mk (M + 1) true [] [] (consecDeltas tm (tm 2) 3 M) (M + 1) [] []
          (some (tm 0)) (some (tm (M + 3))) (some (tm (M + 3) - tm 0))
          (some ((consecDeltas tm (tm 2) 3 M).sum))
          (some (tm (M + 3) - tm 0 - (consecDeltas tm (tm 2) 3 M).sum)) true (M + 4),
        true) := by
  have hd := benchDrive_spec tm M (Bench.mk (M + 1) true [] [] [] 1 [] [] (some (tm 0))
    (some (tm 2)) none none none true 3) (tm 2) (by dsimp only; omega) (by dsimp only; omega) rfl
  dsimp only at hd
  have h0 : benchRun tm (M + 1) benchInit =
      benchDrive tm (Bench.mk (M + 1) true [] [] [] 0 [] [] (some (tm 0)) (some (tm 1))
        none none none true 2) (M + 1 + 1) := rfl
  have h1 : benchNext tm (Bench.mk (M + 1) true [] [] [] 0 [] [] (some (tm 0)) (some (tm 1))
      none none none true 2) =
      (some 1, Bench.mk (M + 1) true [] [] [] 1 [] [] (some (tm 0)) (some (tm 2))
        none none none true 3) := by
    simp [benchNext, timerRead]
  have h2 : benchDrive tm (Bench.mk (M + 1) true [] [] [] 0 [] [] (some (tm 0)) (some (tm 1))
      none none none true 2) (M + 1 + 1) =
      (match benchNext tm (Bench.mk (M + 1) true [] [] [] 0 [] [] (some (tm 0)) (some (tm 1))
          none none none true 2) with
       | (none, s') => ([], s', true)
       | (some v, s') =>
         let r := benchDrive tm s' (M + 1)
         (v :: r.1, r.2.1, r.2.2)) := rfl
  rw [h0, h2, h1]
  dsimp only
  rw [hd]
  rw [show (3 : Nat) + M = M + 3 by omega, show (1 : Nat) + M = M + 1 by omega,
    List.range'_succ]
  simp

/-! ### Claims about the iteration driver -/

/-- C6: for every repeat count `N ≥ 1`, iterating the sequence returned by
`__call__` yields exactly the values `1, 2, …, N` in order and then
terminates normally (the `StopIteration` outcome of `benchNext`, i.e. the
drive finishes with `true`, not an error); for `N = 0` it yields zero items
and terminates on the first advance. -/
theorem claim6_run_yields (tm : Nat → Int) (N : Nat) :
    (benchRun tm N benchInit).1 = List.range' 1 N ∧
      (benchRun tm N benchInit).2.2 = true := by
  cases N with
  | zero => rw [benchRun_zero_eq]; simp
  | succ M => rw [benchRun_succ_eq]; exact ⟨rfl, rfl⟩

/-- C1, counterexample: the claim says a fully driven run with `N = 1`
records `max (N-1) 0 = 0` overall-duration samples, but the terminating
advance also appends a delta, so the code records one sample. -/
theorem claim1_counterexample :
    ¬ ((benchRun (fun k => (k : Int)) 1 benchInit).2.1.loop_benches.length =
      max (1 - 1) 0) := by
  decide

/-- C1, amended: after fully driving a run with repeat count `N` to
completion, the number of recorded overall-duration samples equals `N`
(one delta per iteration: the first advance never appends, but the
terminating advance does), and `N = 0` gives zero samples. -/
theorem claim1_amended (tm : Nat → Int) (N : Nat) :
    (benchRun tm N benchInit).2.1.loop_benches.length = N := by
  cases N with
  | zero => rw [benchRun_zero_eq]; rfl
  | succ M =>
    rw [benchRun_succ_eq]
    dsimp only
    rw [consecDeltas_length]

/-- C5: after a run is driven to completion, `overhead = totaltime -
totalitertime` holds exactly, with `totaltime` the wall time from
`__call__`'s timer reading (`tm 0`) to the terminating advance's reading
(`tm (N+2)`) and `totalitertime` the sum of the recorded samples; and
`totaltime ≥ totalitertime` whenever the injected timer is monotonic. -/
theorem claim5_totals (tm : Nat → Int) (N : Nat) :
    ((benchRun tm N benchInit).2.1.totaltime = some (tm (N + 2) - tm 0) ∧
      (benchRun tm N benchInit).2.1.totalitertime =
        some (benchRun tm N benchInit).2.1.loop_benches.sum ∧
      (benchRun tm N benchInit).2.1.overhead =
        some ((tm (N + 2) - tm 0) - (benchRun tm N benchInit).2.1.loop_benches.sum)) ∧
    (Monotone tm →
      (benchRun tm N benchInit).2.1.loop_benches.sum ≤ tm (N + 2) - tm 0) := by
  cases N with
  | zero =>
    rw [benchRun_zero_eq]
    refine ⟨⟨rfl, rfl, rfl⟩, fun hm => ?_⟩
    have h02 : tm 0 ≤ tm 2 := hm (by omega)
    dsimp only
    simp only [List.sum_nil]
    rw [show (0 : Nat) + 2 = 2 from rfl]
    omega
  | succ M =>
    rw [benchRun_succ_eq]
    refine ⟨⟨rfl, rfl, rfl⟩, fun hm => ?_⟩
    dsimp only
    rw [consecDeltas_sum]
    have h02 : tm 0 ≤ tm 2 := hm (by omega)
    rw [show (3 : Nat) + M = M + 3 by omega]
    show tm (M + 3) - tm 2 ≤ tm (M + 3) - tm 0
    omega

/-- Witness for C5 at `tm k = k`, `N = 1`: the timer is monotonic and the
sum of the recorded samples is bounded by the total wall time. -/
theorem claim5_witness :
    Monotone (fun k : Nat => (k : Int)) ∧
    (benchRun (fun k : Nat => (k : Int)) 1 benchInit).2.1.loop_benches.sum ≤ 3 - 0 := by
  have hm : Monotone (fun k : Nat => (k : Int)) := fun a b h => Nat.cast_le.mpr h
  exact ⟨hm, (claim5_totals (fun k : Nat => (k : Int)) 1).2 hm⟩

/-! ### Dictionary lemmas -/

lemma dictGet_dictInsert_self {α β : Type} [DecidableEq α] (k : α) (v : β) :
    ∀ l : List (α × β), dictGet k (dictInsert k v l) = some v := by
  intro l
  induction l with
  | nil => simp [dictInsert, dictGet]
  | cons hd tl ih =>
    by_cases h : hd.1 = k
    · simp [dictInsert, dictGet, h]
    · obtain ⟨a, b⟩ := hd
      simp only at h
      simp [dictInsert, dictGet, h, ih]

lemma dictGet_dictInsert_ne {α β : Type} [DecidableEq α] (k k' : α) (v : β) (h : k' ≠ k) :
    ∀ l : List (α × β), dictGet k' (dictInsert k v l) = dictGet k' l := by
  have hkk : ¬ k = k' := fun hh => h hh.symm
  intro l
  induction l with
  | nil => simp [dictInsert, dictGet, hkk]
  | cons hd tl ih =>
    obtain ⟨a, b⟩ := hd
    by_cases ha : a = k
    · subst ha
      simp [dictInsert, dictGet, hkk]
    · simp [dictInsert, dictGet, ha, ih]

lemma dictGet_isSome_iff {α β : Type} [DecidableEq α] (k : α) :
    ∀ l : List (α × β), (dictGet k l).isSome ↔ k ∈ l.map Prod.fst := by
  intro l
  induction l with
  | nil => simp [dictGet]
  | cons hd tl ih =>
    obtain ⟨a, b⟩ := hd
    by_cases ha : a = k
    · simp [dictGet, ha]
    · have hka : ¬ k = a := fun hh => ha hh.symm
      simp [dictGet, ha, ih, hka]

lemma keys_dictInsert_isSome {α β : Type} [DecidableEq α] (k : α) (v : β) :
    ∀ l : List (α × β), (dictGet k l).isSome →
      (dictInsert k v l).map Prod.fst = l.map Prod.fst := by
  intro l
  induction l with
  | nil => simp [dictGet]
  | cons hd tl ih =>
    obtain ⟨a, b⟩ := hd
    by_cases ha : a = k
    · simp [dictInsert, dictGet, ha]
    · intro hs
      simp only [dictGet, if_neg ha] at hs
      simp [dictInsert, dictGet, ha, ih hs]

lemma keys_dictInsert_none {α β : Type} [DecidableEq α] (k : α) (v : β) :
    ∀ l : List (α × β), dictGet k l = none →
      (dictInsert k v l).map Prod.fst = l.map Prod.fst ++ [k] := by
  intro l
  induction l with
  | nil => simp [dictInsert, dictGet]
  | cons hd tl ih =>
    obtain ⟨a, b⟩ := hd
    by_cases ha : a = k
    · simp [dictGet, ha]
    · intro hs
      simp only [dictGet, if_neg ha] at hs
      simp [dictInsert, dictGet, ha, ih hs]

/-! ### Commit lemmas -/

lemma commitPart_sample_new (i : Nat) (pname : String) (delta : Int) (b c : Store)
    (h : (dictGet pname ((dictGet i b).getD [])).join = none) :
    (dictGet pname ((dictGet i (commitPart i pname delta b c).1).getD [])).join =
      some delta := by
  unfold commitPart
  cases hib : dictGet i b with
  | none =>
    simp only [hib, Option.isSome_none, Bool.false_eq_true, if_false,
      dictGet_dictInsert_self, Option.getD_some]
    simp [dictGet, dictGet_dictInsert_self]
  | some row =>
    simp only [hib, Option.getD_some] at h
    simp only [hib, Option.isSome_some, if_true, Option.getD_some]
    cases hpr : dictGet pname row with
    | none => simp [hpr, dictGet_dictInsert_self]
    | some v =>
      cases v with
      | none => simp [hpr, dictGet_dictInsert_self]
      | some u => rw [hpr] at h; simp [Option.join] at h

lemma commitPart_sample_add (i : Nat) (pname : String) (delta : Int) (b c : Store) (old : Int)
    (h : (dictGet pname ((dictGet i b).getD [])).join = some old) :
    (dictGet pname ((dictGet i (commitPart i pname delta b c).1).getD [])).join =
      some (old + delta) := by
  unfold commitPart
  cases hib : dictGet i b with
  | none => rw [hib] at h; simp [dictGet] at h
  | some row =>
    simp only [hib, Option.getD_some] at h
    cases hpr : dictGet pname row with
    | none => rw [hpr] at h; simp [Option.join] at h
    | some v =>
      cases v with
      | none => rw [hpr] at h; simp [Option.join] at h
      | some u =>
        rw [hpr] at h
        have hu : u = old := by simpa [Option.join] using h
        subst hu
        simp only [hib, Option.isSome_some, if_true, Option.getD_some, hpr]
        simp [dictGet_dictInsert_self]

lemma commitPart_keys (i : Nat) (pname : String) (delta : Int) (b c : Store)
    (h : b.map Prod.fst = c.map Prod.fst) :
    (commitPart i pname delta b c).1.map Prod.fst =
      (commitPart i pname delta b c).2.map Prod.fst := by
  have hiff : (dictGet i b).isSome = (dictGet i c).isSome := by
    rw [Bool.eq_iff_iff, dictGet_isSome_iff, dictGet_isSome_iff, h]
  unfold commitPart
  cases hib : (dictGet i b).isSome with
  | false =>
    have hic : (dictGet i c).isSome = false := by rw [← hiff, hib]
    have hbn : dictGet i b = none := by
      cases hg : dictGet i b
      · rfl
      · rw [hg] at hib; simp at hib
    have hcn : dictGet i c = none := by
      cases hg : dictGet i c
      · rfl
      · rw [hg] at hic; simp at hic
    simp only [hib, hic, Bool.false_eq_true, if_false]
    have hkeys1 : (dictInsert i ([] : Row) b).map Prod.fst = b.map Prod.fst ++ [i] :=
      keys_dictInsert_none i ([] : Row) b hbn
    have hkeys2 : (dictInsert i ([] : Row) c).map Prod.fst = c.map Prod.fst ++ [i] :=
      keys_dictInsert_none i ([] : Row) c hcn
    rw [keys_dictInsert_isSome _ _ _ (by rw [dictGet_dictInsert_self]; rfl), hkeys1, hkeys2, h]
  | true =>
    have hic : (dictGet i c).isSome = true := by rw [← hiff, hib]
    simp only [hib, hic, if_true]
    rw [keys_dictInsert_isSome _ _ _ hib, h]

/-! ### Part-scope lemmas -/

lemma antiNames_gc (s : Bench) (b ra : Bool) :
    antiNames { s with gc_enabled := b } ra = antiNames s ra := rfl

/-- When the name is already registered under the other class, `part` raises
the `AttributeError` before reading any timestamp; only the `gc` flag may
have been flipped. -/
lemma benchPart_cv {ε : Type} (tm : Nat → Int) (pn : Option String) (ra : Bool)
    (tg : Option Bool) (body : Except ε Unit) (s : Bench)
    (h : resolvedPartName pn ra ∈ antiNames s ra) :
    benchPart tm pn ra tg body s =
      PartResult.consistencyViolation
        (if tg.getD s.default_turn_gc_off then { s with gc_enabled := false } else s) := by
  unfold benchPart
  cases htg : tg.getD s.default_turn_gc_off with
  | false => simp [htg, h]
  | true => simp [htg, antiNames_gc, h]

/-- When the body raises, `part` re-raises the same error after restoring the
`gc` flag; the name has been registered and one timestamp consumed, but the
stores are untouched. -/
lemma benchPart_err {ε : Type} (tm : Nat → Int) (pn : Option String) (ra : Bool)
    (tg : Option Bool) (e : ε) (s : Bench)
    (h : resolvedPartName pn ra ∉ antiNames s ra) :
    benchPart tm pn ra tg (Except.error e) s =
      PartResult.bodyError e
        { registerName s (resolvedPartName pn ra) ra with
            gc_enabled := s.gc_enabled, tick := s.tick + 1 } := by
  unfold benchPart
  cases ra with
  | false =>
    simp only [antiNames, Bool.false_eq_true, if_false] at h
    cases htg : tg.getD s.default_turn_gc_off <;>
      cases hgc : s.gc_enabled <;>
        simp [htg, hgc, h, antiNames, registerName, timerRead]
  | true =>
    simp only [antiNames, if_true] at h
    cases htg : tg.getD s.default_turn_gc_off <;>
      cases hgc : s.gc_enabled <;>
        simp [htg, hgc, h, antiNames, registerName, timerRead]

/-- Normal exit of an inline (`report_apart=False`) scope: register the name,
read two timestamps, and commit `delta` into `parts_benches` (creating the
iteration in `apart_benches` too); the `gc` flag ends where it started. -/
lemma benchPart_ok_inline {ε : Type} (tm : Nat → Int) (pn : Option String) (tg : Option Bool)
    (s : Bench) (h : resolvedPartName pn false ∉ antiNames s false) :
    benchPart tm pn false tg (Except.ok () : Except ε Unit) s =
      PartResult.ok
        { s with
            parts_names := setAdd (resolvedPartName pn false) s.parts_names
            parts_benches := (commitPart s.current_iteration (resolvedPartName pn false)
              (tm (s.tick + 1) - tm s.tick) s.parts_benches s.apart_benches).1
            apart_benches := (commitPart s.current_iteration (resolvedPartName pn false)
              (tm (s.tick + 1) - tm s.tick) s.parts_benches s.apart_benches).2
            tick := s.tick + 2 } := by
  unfold benchPart
  simp only [antiNames, Bool.false_eq_true, if_false, if_true] at h
  cases htg : tg.getD s.default_turn_gc_off <;>
    cases hgc : s.gc_enabled <;>
      simp [htg, hgc, h, antiNames, registerName, timerRead, show s.tick + 1 + 1 = s.tick + 2
        from rfl]

/-- Normal exit of a separate (`report_apart=True`) scope, symmetrically. -/
lemma benchPart_ok_apart {ε : Type} (tm : Nat → Int) (pn : Option String) (tg : Option Bool)
    (s : Bench) (h : resolvedPartName pn true ∉ antiNames s true) :
    benchPart tm pn true tg (Except.ok () : Except ε Unit) s =
      PartResult.ok
        { s with
            apart_names := setAdd (resolvedPartName pn true) s.apart_names
            apart_benches := (commitPart s.current_iteration (resolvedPartName pn true)
              (tm (s.tick + 1) - tm s.tick) s.apart_benches s.parts_benches).1
            parts_benches := (commitPart s.current_iteration (resolvedPartName pn true)
              (tm (s.tick + 1) - tm s.tick) s.apart_benches s.parts_benches).2
            tick := s.tick + 2 } := by
  unfold benchPart
  simp only [antiNames, Bool.false_eq_true, if_false, if_true] at h
  cases htg : tg.getD s.default_turn_gc_off <;>
    cases hgc : s.gc_enabled <;>
      simp [htg, hgc, h, antiNames, registerName, timerRead, show s.tick + 1 + 1 = s.tick + 2
        from rfl]

/-! ### Claims about the part scope -/

/-- C2: when a part scope's body raises, the sample stores are left unchanged
(no duration is committed), the original exception value propagates unchanged
in the `bodyError` outcome, and the prior `gc` enabled/disabled state is
restored in the propagated state. -/
theorem claim2_body_failure {ε : Type} (tm : Nat → Int) (pn : Option String) (ra : Bool)
    (tg : Option Bool) (e : ε) (s : Bench)
    (h : resolvedPartName pn ra ∉ antiNames s ra) :
    ∃ s', benchPart tm pn ra tg (Except.error e) s = PartResult.bodyError e s' ∧
      s'.parts_benches = s.parts_benches ∧ s'.apart_benches = s.apart_benches ∧
      s'.gc_enabled = s.gc_enabled := by
  refine ⟨_, benchPart_err tm pn ra tg e s h, ?_, ?_, ?_⟩ <;>
    cases ra <;> simp [registerName]

/-- Witness for C2: a body failing with error `7` inside an inline scope named
`"a"` on a fresh report leaves both stores and the `gc` flag as they were. -/
theorem claim2_witness :
    resolvedPartName (some "a") false ∉ antiNames benchInit false ∧
    ∃ s', benchPart (fun k => (k : Int)) (some "a") false none (Except.error (7 : Nat))
        benchInit = PartResult.bodyError 7 s' ∧
      s'.parts_benches = benchInit.parts_benches ∧
      s'.apart_benches = benchInit.apart_benches ∧
      s'.gc_enabled = benchInit.gc_enabled :=
  ⟨by decide, claim2_body_failure (fun k => (k : Int)) (some "a") false none 7 benchInit
    (by decide)⟩

/-- C3: opening a scope whose resolved name is already registered under the
other reporting class fails with the consistency-violation error at
scope-open time, before the start timestamp is taken (`tick` unchanged), and
leaves both name registries and both sample stores untouched. -/
theorem claim3_class_conflict {ε : Type} (tm : Nat → Int) (pn : Option String) (ra : Bool)
    (tg : Option Bool) (body : Except ε Unit) (s : Bench)
    (h : resolvedPartName pn ra ∈ antiNames s ra) :
    ∃ s', benchPart tm pn ra tg body s = PartResult.consistencyViolation s' ∧
      s'.parts_names = s.parts_names ∧ s'.apart_names = s.apart_names ∧
      s'.parts_benches = s.parts_benches ∧ s'.apart_benches = s.apart_benches ∧
      s'.tick = s.tick := by
  refine ⟨_, benchPart_cv tm pn ra tg body s h, ?_, ?_, ?_, ?_, ?_⟩ <;>
    cases tg.getD s.default_turn_gc_off <;> simp

/-- Witness for C3: `"X"` is first opened inline on a fresh report; the later
attempt to open `"X"` as a separate scope hits the registered-name hypothesis
and fails, leaving the first class assignment and samples unaffected. -/
theorem claim3_witness :
    benchPart (fun k => (k : Int)) (some "X") false none (Except.ok () : Except Unit Unit)
        benchInit =
      PartResult.ok (Bench.mk 1 true [(0, [("X", some 1)])] [(0, [])] [] 0 ["X"] []
        none none none none none true 2) ∧
    resolvedPartName (some "X") true ∈
      antiNames (Bench.mk 1 true [(0, [("X", some 1)])] [(0, [])] [] 0 ["X"] []
        none none none none none true 2) true ∧
    ∃ s', benchPart (fun k => (k : Int)) (some "X") true none (Except.ok () : Except Unit Unit)
        (Bench.mk 1 true [(0, [("X", some 1)])] [(0, [])] [] 0 ["X"] []
          none none none none none true 2) = PartResult.consistencyViolation s' ∧
      s'.parts_names = ["X"] ∧ s'.apart_names = [] ∧
      s'.parts_benches = [(0, [("X", some 1)])] ∧ s'.apart_benches = [(0, [])] ∧
      s'.tick = 2 :=
  ⟨by decide, by decide,
    claim3_class_conflict (fun k => (k : Int)) (some "X") true none (Except.ok ())
      (Bench.mk 1 true [(0, [("X", some 1)])] [(0, [])] [] 0 ["X"] []
        none none none none none true 2) (by decide)⟩

/-- C10: when the consistency violation fires while pause suppression was
requested (`turn_gc_off` resolving to `True`) and `gc` was previously
enabled, the prior `gc` state is NOT restored: `gc` stays disabled in the
propagated state, because the suppression happens before the check and the
restore only wraps the scope body. -/
theorem claim10_gc_not_restored {ε : Type} (tm : Nat → Int) (pn : Option String) (ra : Bool)
    (tg : Option Bool) (body : Except ε Unit) (s : Bench)
    (hgc : s.gc_enabled = true)
    (htg : tg.getD s.default_turn_gc_off = true)
    (h : resolvedPartName pn ra ∈ antiNames s ra) :
    ∃ s', benchPart tm pn ra tg body s = PartResult.consistencyViolation s' ∧
      s'.gc_enabled = false := by
  refine ⟨_, benchPart_cv tm pn ra tg body s h, ?_⟩
  simp [htg]

/-- Witness for C10: a fresh report that already has `"X"` registered as a
separate part, `gc` enabled and default pause suppression on; reopening
`"X"` inline violates consistency and leaves `gc` disabled. -/
theorem claim10_witness :
    (Bench.mk 1 true [] [] [] 0 [] ["X"] none none none none none true 0).gc_enabled = true ∧
    (Option.getD none
      (Bench.mk 1 true [] [] [] 0 [] ["X"] none none none none none true 0
        ).default_turn_gc_off) = true ∧
    resolvedPartName (some "X") false ∈
      antiNames (Bench.mk 1 true [] [] [] 0 [] ["X"] none none none none none true 0) false ∧
    ∃ s', benchPart (fun k => (k : Int)) (some "X") false none (Except.ok () : Except Unit Unit)
        (Bench.mk 1 true [] [] [] 0 [] ["X"] none none none none none true 0) =
      PartResult.consistencyViolation s' ∧ s'.gc_enabled = false :=
  ⟨rfl, rfl, by decide,
    claim10_gc_not_restored (fun k => (k : Int)) (some "X") false none (Except.ok ())
      (Bench.mk 1 true [] [] [] 0 [] ["X"] none none none none none true 0)
      rfl rfl (by decide)⟩

/-- C7: two successfully closed scopes with the same name and class inside
the same iteration accumulate: starting with no sample for
`(current iteration, p)`, the final Part Sample equals `d1 + d2`, the sum of
the two measured durations. -/
theorem claim7_accumulate (tm : Nat → Int) (p : String) (ra : Bool) (tg : Option Bool)
    (s : Bench) (h1 : p ∉ antiNames s ra)
    (h2 : partSample s ra s.current_iteration p = none) :
    ∃ s1 s2,
      benchPart tm (some p) ra tg (Except.ok () : Except Unit Unit) s = PartResult.ok s1 ∧
      benchPart tm (some p) ra tg (Except.ok () : Except Unit Unit) s1 = PartResult.ok s2 ∧
      partSample s2 ra s.current_iteration p =
        some ((tm (s.tick + 1) - tm s.tick) + (tm (s.tick + 3) - tm (s.tick + 2))) := by
  cases ra with
  | false =>
    have e1 := benchPart_ok_inline (ε := Unit) tm (some p) tg s h1
    have hres : resolvedPartName (some p) false = p := rfl
    rw [hres] at e1
    have e2 := benchPart_ok_inline (ε := Unit) tm (some p) tg
      { s with
        parts_names := setAdd p s.parts_names
        parts_benches := (commitPart s.current_iteration p
          (tm (s.tick + 1) - tm s.tick) s.parts_benches s.apart_benches).1
        apart_benches := (commitPart s.current_iteration p
          (tm (s.tick + 1) - tm s.tick) s.parts_benches s.apart_benches).2
        tick := s.tick + 2 }
      (by simpa [antiNames] using h1)
    rw [hres] at e2
    refine ⟨_, _, e1, e2, ?_⟩
    have hnew := commitPart_sample_new s.current_iteration p
      (tm (s.tick + 1) - tm s.tick) s.parts_benches s.apart_benches
      (by simpa [partSample, ownStore] using h2)
    have hadd := commitPart_sample_add s.current_iteration p
      (tm (s.tick + 2 + 1) - tm (s.tick + 2))
      (commitPart s.current_iteration p (tm (s.tick + 1) - tm s.tick)
        s.parts_benches s.apart_benches).1
      (commitPart s.current_iteration p (tm (s.tick + 1) - tm s.tick)
        s.parts_benches s.apart_benches).2
      (tm (s.tick + 1) - tm s.tick) hnew
    simpa [partSample, ownStore] using hadd
  | true =>
    have e1 := benchPart_ok_apart (ε := Unit) tm (some p) tg s h1
    have hres : resolvedPartName (some p) true = p := rfl
    rw [hres] at e1
    have e2 := benchPart_ok_apart (ε := Unit) tm (some p) tg
      { s with
        apart_names := setAdd p s.apart_names
        apart_benches := (commitPart s.current_iteration p
          (tm (s.tick + 1) - tm s.tick) s.apart_benches s.parts_benches).1
        parts_benches := (commitPart s.current_iteration p
          (tm (s.tick + 1) - tm s.tick) s.apart_benches s.parts_benches).2
        tick := s.tick + 2 }
      (by simpa [antiNames] using h1)
    rw [hres] at e2
    refine ⟨_, _, e1, e2, ?_⟩
    have hnew := commitPart_sample_new s.current_iteration p
      (tm (s.tick + 1) - tm s.tick) s.apart_benches s.parts_benches
      (by simpa [partSample, ownStore] using h2)
    have hadd := commitPart_sample_add s.current_iteration p
      (tm (s.tick + 2 + 1) - tm (s.tick + 2))
      (commitPart s.current_iteration p (tm (s.tick + 1) - tm s.tick)
        s.apart_benches s.parts_benches).1
      (commitPart s.current_iteration p (tm (s.tick + 1) - tm s.tick)
        s.apart_benches s.parts_benches).2
      (tm (s.tick + 1) - tm s.tick) hnew
    simpa [partSample, ownStore] using hadd

/-- Witness for C7: two inline scopes named `"a"` on a fresh report with the
identity timer accumulate `(1 - 0) + (3 - 2) = 2`. -/
theorem claim7_witness :
    "a" ∉ antiNames benchInit false ∧
    partSample benchInit false benchInit.current_iteration "a" = none ∧
    ∃ s1 s2,
      benchPart (fun k => (k : Int)) (some "a") false none (Except.ok () : Except Unit Unit)
        benchInit = PartResult.ok s1 ∧
      benchPart (fun k => (k : Int)) (some "a") false none (Except.ok () : Except Unit Unit)
        s1 = PartResult.ok s2 ∧
      partSample s2 false benchInit.current_iteration "a" = some 2 :=
  ⟨by decide, by decide,
    claim7_accumulate (fun k => (k : Int)) "a" false none benchInit (by decide) (by decide)⟩

/-! ### Claims about the sample stores and lookups -/

lemma benchNext_stores (tm : Nat → Int) (s : Bench) :
    (benchNext tm s).2.parts_benches = s.parts_benches ∧
    (benchNext tm s).2.apart_benches = s.apart_benches := by
  obtain ⟨dr, dg, pb, ab, lb, ci, pn, an, st, lt, tt, tit, ov, ge, tk⟩ := s
  unfold benchNext timerRead
  dsimp only
  constructor <;> split <;> split <;> rfl

/-- C9: the two per-iteration stores always hold the same iteration keys:
the invariant holds initially, and is preserved by `reset`, `__call__`,
`__iter__`, `__next__` and by every outcome of `part` (a successful commit
creates the current iteration in both stores); consequently the keys of the
inline store — the ones `iter_measures_parts_globalized("all")` iterates —
cover every iteration present in either store. -/
theorem claim9_stores_aligned (tm : Nat → Int) (s : Bench) (h : storesAligned s) :
    storesAligned benchInit ∧
    storesAligned (benchReset s) ∧
    (∀ n, storesAligned (benchCall tm n s)) ∧
    storesAligned (benchIter tm s) ∧
    storesAligned (benchNext tm s).2 ∧
    (∀ (pn : Option String) (ra : Bool) (tg : Option Bool) (body : Except Unit Unit)
        (s' : Bench),
      (benchPart tm pn ra tg body s = PartResult.ok s' ∨
        benchPart tm pn ra tg body s = PartResult.consistencyViolation s' ∨
        benchPart tm pn ra tg body s = PartResult.bodyError () s') →
      storesAligned s') ∧
    (∀ i, i ∈ s.apart_benches.map Prod.fst → i ∈ s.parts_benches.map Prod.fst) := by
  refine ⟨rfl, rfl, fun n => by cases n <;> rfl, h, ?_, ?_, fun i hi => ?_⟩
  · unfold storesAligned
    rw [(benchNext_stores tm s).1, (benchNext_stores tm s).2]
    exact h
  · intro pn ra tg body s' hcase
    by_cases hmem : resolvedPartName pn ra ∈ antiNames s ra
    · have hcv := benchPart_cv tm pn ra tg body s hmem
      rcases hcase with hk | hk | hk
      · rw [hcv] at hk; simp at hk
      · rw [hcv] at hk
        have hs' := (PartResult.consistencyViolation.injEq _ _).mp hk
        subst hs'
        unfold storesAligned
        cases htg : tg.getD s.default_turn_gc_off <;> simp [htg] <;> exact h
      · rw [hcv] at hk; simp at hk
    · rcases hcase with hk | hk | hk
      · cases body with
        | error e =>
          rw [benchPart_err tm pn ra tg e s hmem] at hk
          simp at hk
        | ok u =>
          cases u
          cases ra with
          | false =>
            rw [benchPart_ok_inline tm pn tg s hmem] at hk
            have hs' := (PartResult.ok.injEq _ _).mp hk.symm
            subst hs'
            unfold storesAligned
            dsimp only
            exact commitPart_keys _ _ _ _ _ h
          | true =>
            rw [benchPart_ok_apart tm pn tg s hmem] at hk
            have hs' := (PartResult.ok.injEq _ _).mp hk.symm
            subst hs'
            unfold storesAligned
            dsimp only
            exact (commitPart_keys _ _ _ _ _ h.symm).symm
      · cases body with
        | error e =>
          rw [benchPart_err tm pn ra tg e s hmem] at hk
          simp at hk
        | ok u =>
          cases u
          cases ra with
          | false => rw [benchPart_ok_inline tm pn tg s hmem] at hk; simp at hk
          | true => rw [benchPart_ok_apart tm pn tg s hmem] at hk; simp at hk
      · cases body with
        | ok u =>
          cases u
          cases ra with
          | false => rw [benchPart_ok_inline tm pn tg s hmem] at hk; simp at hk
          | true => rw [benchPart_ok_apart tm pn tg s hmem] at hk; simp at hk
        | error e =>
          rw [benchPart_err tm pn ra tg e s hmem] at hk
          have he := (PartResult.bodyError.injEq _ _ _ _).mp hk.symm
          obtain ⟨-, hs'⟩ := he
          subst hs'
          unfold storesAligned
          cases ra <;> simp [registerName] <;> exact h
  · unfold storesAligned at h
    rw [h]
    exact hi

/-- Witness for C9 at the freshly initialised report, whose stores are both
empty and hence aligned. -/
theorem claim9_witness :
    storesAligned benchInit ∧
    storesAligned (benchNext (fun k => (k : Int)) benchInit).2 :=
  ⟨rfl, (claim9_stores_aligned (fun k => (k : Int)) benchInit rfl).2.2.2.2.1⟩

lemma collectPart_mem (b : Store) (p : String) (t : Int) :
    t ∈ collectPart b p ↔ ∃ pr ∈ b, dictGet p pr.2 = some (some t) := by
  unfold collectPart
  rw [List.mem_filterMap]
  constructor
  · rintro ⟨a, ha, hfa⟩
    refine ⟨a, ha, ?_⟩
    cases hg : dictGet p a.2 with
    | none => rw [hg] at hfa; simp at hfa
    | some v =>
      cases v with
      | none => rw [hg] at hfa; simp at hfa
      | some u =>
        rw [hg] at hfa
        simp only [Option.some.injEq] at hfa
        rw [hfa]
  · rintro ⟨a, ha, hg⟩
    exact ⟨a, ha, by simp [hg]⟩

/-- C8: consuming `iter_measures_part(name)` fails with the lookup error if
and only if the name was registered under neither reporting class; for a
registered name it yields exactly that name's recorded durations — for an
inline name those in `parts_benches`, otherwise those in `apart_benches` —
and the yielded values are precisely the non-absent samples across the
iterations that have one (iterations without a sample are skipped). -/
theorem claim8_measures_lookup (s : Bench) (p : String) :
    (iter_measures_part s p = Except.error () ↔
      p ∉ s.parts_names ∧ p ∉ s.apart_names) ∧
    (p ∈ s.parts_names →
      iter_measures_part s p = Except.ok (collectPart s.parts_benches p)) ∧
    (p ∉ s.parts_names → p ∈ s.apart_names →
      iter_measures_part s p = Except.ok (collectPart s.apart_benches p)) ∧
    (∀ (b : Store) (t : Int),
      t ∈ collectPart b p ↔ ∃ pr ∈ b, dictGet p pr.2 = some (some t)) := by
  refine ⟨?_, ?_, ?_, fun b t => collectPart_mem b p t⟩ <;>
    · unfold iter_measures_part
      by_cases hp : p ∈ s.parts_names <;> by_cases ha : p ∈ s.apart_names <;>
        simp [hp, ha]

/-- Witness for C8: on a report whose only registered name is the inline
`"a"` with one recorded sample, the query for `"a"` succeeds with that
sample and the query outcome for the unregistered `"zz"` is the error. -/
theorem claim8_witness :
    ("a" ∈ (Bench.mk 1 true [(0, [("a", some 5)])] [(0, [])] [] 0 ["a"] []
      none none none none none true 2).parts_names) ∧
    iter_measures_part (Bench.mk 1 true [(0, [("a", some 5)])] [(0, [])] [] 0 ["a"] []
      none none none none none true 2) "a" =
      Except.ok (collectPart [(0, [("a", some 5)])] "a") :=
  ⟨by decide,
    (claim8_measures_lookup (Bench.mk 1 true [(0, [("a", some 5)])] [(0, [])] [] 0 ["a"] []
      none none none none none true 2) "a").2.1 (by decide)⟩

/-! ### Claims about the stats aggregator -/

lemma statStep_some (T : ℚ) (n : Nat) (mn : Option ℚ) (t : ℚ) :
    statStep (T, n, mn) (some t) =
      (T + t, n + 1,
        match mn with
        | none => some t
        | some m => if m > t then some t else some m) := rfl

lemma filterMap_id_cons_some (t : ℚ) (tl : List (Option ℚ)) :
    (some t :: tl).filterMap id = t :: tl.filterMap id := by simp

lemma filterMap_id_cons_none (tl : List (Option ℚ)) :
    ((none : Option ℚ) :: tl).filterMap id = tl.filterMap id := by simp

lemma foldl_statStep_count (l : List (Option ℚ)) :
    ∀ (T : ℚ) (n : Nat) (mn : Option ℚ),
      (l.foldl statStep (T, n, mn)).2.1 = n + (l.filterMap id).length := by
  induction l with
  | nil => intro T n mn; simp
  | cons hd tl ih =>
    intro T n mn
    cases hd with
    | none => simpa [statStep, filterMap_id_cons_none] using ih T n mn
    | some t =>
      rw [List.foldl_cons, statStep_some, ih, filterMap_id_cons_some, List.length_cons]
      omega

lemma foldl_statStep_min (l : List (Option ℚ)) :
    ∀ (T : ℚ) (n : Nat) (mn : Option ℚ),
      (l.foldl statStep (T, n, mn)).2.2 = optMin mn (l.filterMap id) := by
  induction l with
  | nil => intro T n mn; cases mn <;> simp [optMin]
  | cons hd tl ih =>
    intro T n mn
    cases hd with
    | none => simpa [statStep, filterMap_id_cons_none] using ih T n mn
    | some t =>
      rw [List.foldl_cons, statStep_some, filterMap_id_cons_some]
      cases mn with
      | none =>
        rw [show optMin none (t :: tl.filterMap id) = optMin (some t) (tl.filterMap id)
          from rfl]
        exact ih _ _ _
      | some m =>
        rw [show optMin (some m) (t :: tl.filterMap id) =
          optMin (some (if m > t then t else m)) (tl.filterMap id) from rfl]
        rw [show (match some m with
            | none => some t
            | some m => if m > t then some t else some m) =
          some (if m > t then t else m) by by_cases hc : m > t <;> simp [hc]]
        exact ih _ _ _

lemma optMin_some_isSome (l : List ℚ) :
    ∀ m : ℚ, ∃ r, optMin (some m) l = some r := by
  induction l with
  | nil => intro m; exact ⟨m, rfl⟩
  | cons t ts ih => intro m; exact ih _

lemma optMin_le (l : List ℚ) :
    ∀ (mn : Option ℚ) (m : ℚ), optMin mn l = some m →
      (∀ q ∈ l, m ≤ q) ∧ (m ∈ l ∨ mn = some m) ∧ (∀ q, mn = some q → m ≤ q) := by
  induction l with
  | nil =>
    intro mn m h
    cases mn with
    | none => simp [optMin] at h
    | some m0 =>
      simp only [optMin, Option.some.injEq] at h
      subst h
      exact ⟨by simp, Or.inr rfl, fun q hq => le_of_eq ((Option.some.injEq _ _).mp hq)⟩
  | cons t ts ih =>
    intro mn m h
    cases mn with
    | none =>
      rw [show optMin none (t :: ts) = optMin (some t) ts from rfl] at h
      obtain ⟨hle, hmem, hseed⟩ := ih (some t) m h
      have hmt : m ≤ t := hseed t rfl
      refine ⟨?_, ?_, ?_⟩
      · intro q hq
        rcases List.mem_cons.mp hq with hq | hq
        · exact hq ▸ hmt
        · exact hle q hq
      · rcases hmem with hm | hm
        · exact Or.inl (List.mem_cons_of_mem _ hm)
        · have htm : t = m := (Option.some.injEq _ _).mp hm
          subst htm
          exact Or.inl (List.mem_cons_self t ts)
      · intro q hq
        cases hq
    | some m0 =>
      rw [show optMin (some m0) (t :: ts) =
        optMin (some (if m0 > t then t else m0)) ts from rfl] at h
      obtain ⟨hle, hmem, hseed⟩ := ih (some (if m0 > t then t else m0)) m h
      have hmv : m ≤ if m0 > t then t else m0 := hseed _ rfl
      have hvt : (if m0 > t then t else m0) ≤ t := by
        by_cases hc : m0 > t
        · simp [hc]
        · rw [if_neg hc]
          linarith [not_lt.mp hc]
      have hvm0 : (if m0 > t then t else m0) ≤ m0 := by
        by_cases hc : m0 > t
        · rw [if_pos hc]
          linarith
        · simp [hc]
      refine ⟨?_, ?_, ?_⟩
      · intro q hq
        rcases List.mem_cons.mp hq with hq | hq
        · exact hq ▸ le_trans hmv hvt
        · exact hle q hq
      · rcases hmem with hm | hm
        · exact Or.inl (List.mem_cons_of_mem _ hm)
        · by_cases hc : m0 > t
          · rw [if_pos hc] at hm
            have htm : t = m := (Option.some.injEq _ _).mp hm
            subst htm
            exact Or.inl (List.mem_cons_self t ts)
          · rw [if_neg hc] at hm
            exact Or.inr hm
      · intro q hq
        have hq0 : m0 = q := (Option.some.injEq _ _).mp hq
        subst hq0
        exact le_trans hmv hvm0

/-- C4: `_get_stats` on the empty sequence gives
`{total := 0, n := 0, avg := none, min := none}`; on the nanosecond samples
`[100, 50, 150]` it gives, after conversion to the reporting unit,
`{total := 300, n := 3, avg := 100, min := 50}` (each duration divided by
`ns_to_ms`); and whenever `n > 0`, `avg = total / n` and `min` is the
converted least non-absent sample. -/
theorem claim4_stats :
    _get_stats [] = { total := 0, n := 0, avg := none, min := none } ∧
    _get_stats [some 100, some 50, some 150] =
      { total := 300 / ns_to_ms, n := 3, avg := some (100 / ns_to_ms),
        min := some (50 / ns_to_ms) } ∧
    ∀ measures : List (Option ℚ), 0 < (_get_stats measures).n →
      (_get_stats measures).avg =
        some ((_get_stats measures).total / ((_get_stats measures).n : ℚ)) ∧
      ∃ m, (_get_stats measures).min = some (m / ns_to_ms) ∧
        m ∈ measures.filterMap id ∧ ∀ q ∈ measures.filterMap id, m ≤ q := by
  refine ⟨?_, ?_, fun measures hn => ⟨?_, ?_⟩⟩
  · norm_num [_get_stats, statStep, ns_to_ms, Stat.mk.injEq]
  · norm_num [_get_stats, statStep, ns_to_ms, Stat.mk.injEq]
  · unfold _get_stats at hn ⊢
    dsimp only at hn ⊢
    rw [if_pos hn]
  · have hmin := foldl_statStep_min measures 0 0 none
    have hcount := foldl_statStep_count measures 0 0 none
    have hn' : 0 < (measures.filterMap id).length := by
      unfold _get_stats at hn
      dsimp only at hn
      rw [hcount] at hn
      omega
    cases hl : measures.filterMap id with
    | nil => rw [hl] at hn'; simp at hn'
    | cons t ts =>
      obtain ⟨r, hr⟩ := optMin_some_isSome ts t
      have hms : (measures.foldl statStep (0, 0, none)).2.2 = some r := by
        rw [hmin, hl]
        exact hr
      obtain ⟨hle, hmem, hseed⟩ := optMin_le ts (some t) r hr
      have hmt : r ≤ t := hseed t rfl
      refine ⟨r, ?_, ?_, ?_⟩
      · unfold _get_stats
        dsimp only
        rw [hms]
        rfl
      · rcases hmem with hm | hm
        · exact List.mem_cons_of_mem _ hm
        · have htm : t = r := (Option.some.injEq _ _).mp hm
          subst htm
          exact List.mem_cons_self t ts
      · intro q hq
        rcases List.mem_cons.mp hq with hq | hq
        · exact hq ▸ hmt
        · exact hle q hq

/-- Witness for C4: on `[100, 50, 150]` the count is positive and the
average equals the converted total divided by the count. -/
theorem claim4_witness :
    0 < (_get_stats [some 100, some 50, some 150]).n ∧
    (_get_stats [some 100, some 50, some 150]).avg =
      some ((_get_stats [some 100, some 50, some 150]).total /
        ((_get_stats [some 100, some 50, some 150]).n : ℚ)) :=
  ⟨by decide, (claim4_stats.2.2 [some 100, some 50, some 150] (by decide)).1⟩

end PyBench
